import Mathlib

/-!
Verification of the Document Segmentation & Hybrid Retrieval Engine of the
protocol-query repository.

Each definition below is a shallow embedding of a function of the Python
source, translated clause by clause:

* `src/protocol_query/search/fts.py`        → `FTSSearch._build_fts_query`
* `src/protocol_query/search/hybrid.py`     → `HybridSearch.search`, `_hybrid_search`
* `src/protocol_query/search/vector.py`     → `VectorSearch._cosine_similarity`, scan
* `src/protocol_query/parsers/chunker.py`   → `ProtocolChunker._chunk_criteria`
* `src/protocol_query/analysis/comparison.py` → `ProtocolComparer._find_similar_criteria`
* `src/protocol_query/cli/ingest.py`        → `_store_document`
* `src/protocol_query/core/database.py`     → `Database.cursor` (commit/rollback)

Python strings are modelled as `List Char`, Python floats as exact rationals
(`ℚ`) except where the 4-byte float conversion itself is the object of the
claim, in which case rounding to a 24-bit significand is modelled explicitly.
Python `math.sqrt` is kept as an explicit function parameter of the cosine
similarity definitions; concrete theorems instantiate it with a function that
agrees with `math.sqrt` on the perfect squares at which those theorems
evaluate it (floating point `sqrt` is exact on such inputs).
-/

/-- Python whitespace, as used by `str.split()` / `str.strip()` and by the
regex class `\s` (ASCII range; the claims evaluate only ASCII whitespace). -/
def isPySpace (c : Char) : Bool :=
  c = ' ' || c = '\t' || c = '\n' || c = '\r' || c = '\x0b' || c = '\x0c'

/-- Python `str.strip()`: drop whitespace from both ends. -/
def pyStrip (s : List Char) : List Char :=
  ((s.dropWhile isPySpace).reverse.dropWhile isPySpace).reverse

/-- Auxiliary for `pySplit`: accumulate the current word (reversed). -/
def pySplitAux : List Char → List Char → List (List Char)
  | [], acc => if acc = [] then [] else [acc.reverse]
  | c :: cs, acc =>
      if isPySpace c then
        if acc = [] then pySplitAux cs [] else acc.reverse :: pySplitAux cs []
      else pySplitAux cs (c :: acc)

/-- Python `str.split()` with no argument: split on runs of whitespace,
producing no empty words. -/
def pySplit (s : List Char) : List (List Char) :=
  pySplitAux s []

/-- Characters removed by `FTSSearch._build_fts_query`
(`special_chars = '"*^:(){}[]'` in fts.py). -/
def ftsSpecialChars : List Char :=
  ['"', '*', '^', ':', '(', ')', '\x7b', '\x7d', '[', ']']

/-- The `query.replace(char, " ")` loop of `_build_fts_query`: every special
character becomes a space. -/
def ftsReplaceSpecials (query : List Char) : List Char :=
  query.map (fun c => if ftsSpecialChars.contains c then ' ' else c)

/-- The word list of `_build_fts_query`:
`[w.strip() for w in query.split() if w.strip()]` applied to the query after
special-character replacement. -/
def ftsWords (query : List Char) : List (List Char) :=
  ((pySplit (ftsReplaceSpecials query)).map pyStrip).filter (fun w => w ≠ [])

/-- Python `sep.join(parts)`. -/
def pyJoin (sep : List Char) : List (List Char) → List Char
  | [] => []
  | [x] => x
  | x :: y :: xs => x ++ sep ++ pyJoin sep (y :: xs)

/-- `FTSSearch._build_fts_query` from fts.py: strip special characters, split
into words, keep words of length ≥ 2 as quoted prefix terms joined with
`OR`; return the empty phrase `""` when there are no words at all, and a
phrase query of the whole (stripped) text when every word is shorter than 2
characters. -/
def buildFtsQuery (query : List Char) : List Char :=
  let q := ftsReplaceSpecials query
  let words := ftsWords query
  if words = [] then ['"', '"']
  else
    let queryParts := words.filterMap
      (fun w => if 2 ≤ w.length then some ('"' :: (w ++ ['"', '*'])) else none)
    if queryParts = [] then '"' :: (q ++ ['"'])
    else pyJoin [' ', 'O', 'R', ' '] queryParts

/-- The RRF constant `HybridSearch.RRF_K` (hybrid.py line 34). -/
def RRF_K : ℕ := 60

/-- Rank dictionary of `_hybrid_search`:
`{r.chunk_id: i + 1 for i, r in enumerate(results)}` — the 1-based position
of a chunk id in a result list; a duplicated key keeps the last binding,
exactly as a Python dict comprehension does. `i` is the 0-based offset of
the list passed in. -/
def rankFrom (i : ℕ) : List ℕ → ℕ → Option ℕ
  | [], _ => none
  | x :: xs, c =>
      match rankFrom (i + 1) xs c with
      | some r => some r
      | none => if x = c then some (i + 1) else none

/-- The 1-based rank of chunk `c` in a result list, `none` when absent. -/
def rankOf (l : List ℕ) (c : ℕ) : Option ℕ :=
  rankFrom 0 l c

/-- The fused score of `_hybrid_search`: starting from `0.0`, add
`1/(RRF_K + rank)` for each source list that contains the chunk. -/
def rrfScore (ftsIds vecIds : List ℕ) (c : ℕ) : ℚ :=
  (match rankOf ftsIds c with
   | some r => (1 : ℚ) / (RRF_K + r)
   | none => 0) +
  (match rankOf vecIds c with
   | some r => (1 : ℚ) / (RRF_K + r)
   | none => 0)

/-- Iteration order of a CPython `set` of small non-negative ints.  For fewer
than five distinct elements the hash table has eight slots; `hash(n) = n` for
these ints, so an element `n < 8` lands in slot `n` with no collisions and
iteration — an ascending scan of the slots — yields the elements in ascending
order, regardless of insertion order.  This models
`set(fts_ranks.keys()) | set(vector_ranks.keys())` in `_hybrid_search` for
inputs whose chunk ids are all below 8 (the regime of every concrete theorem
below). -/
def cpySetElems (xs : List ℕ) : List ℕ :=
  (List.range 8).filter (fun s => xs.contains s)

/-- Insertion step of a stable descending sort: walk past elements with
strictly larger score, insert before the first element whose score is not
larger.  Elements with equal score keep their original relative order, which
is exactly the guarantee of Python's stable `sorted(..., reverse=True)`. -/
def insertDesc (score : ℕ → ℚ) (x : ℕ) : List ℕ → List ℕ
  | [] => [x]
  | y :: ys => if score x < score y then y :: insertDesc score x ys else x :: y :: ys

/-- Stable sort by descending score; models
`sorted(rrf_scores.keys(), key=..., reverse=True)` in `_hybrid_search`
(any stable sort under the same order produces the same list). -/
def stableSortDesc (score : ℕ → ℚ) : List ℕ → List ℕ
  | [] => []
  | x :: xs => insertDesc score x (stableSortDesc score xs)

/-- The fully ranked chunk-id list of `_hybrid_search` before the `[:limit]`
truncation: collect `all_chunk_ids` (a Python set union, iterated in hash
order), then sort by descending RRF score with Python's stable sort. -/
def hybridRankedIds (ftsIds vecIds : List ℕ) : List ℕ :=
  stableSortDesc (rrfScore ftsIds vecIds) (cpySetElems (ftsIds ++ vecIds))

/-- `_hybrid_search` result ids: the ranked list truncated to `limit`. -/
def hybridSearchIds (ftsIds vecIds : List ℕ) (limit : ℕ) : List ℕ :=
  (hybridRankedIds ftsIds vecIds).take limit

/-- The order in which chunk ids are first encountered across the two source
result lists (lexical list first, then vector list) — the tie-break order the
spec prescribes. -/
def encounterOrder (ftsIds vecIds : List ℕ) : List ℕ :=
  (ftsIds ++ vecIds).dedup

/-- `HybridSearch.search` dispatch (hybrid.py lines 65-100): mode `"fts"`
runs the lexical search with `limit`, mode `"vector"` the vector search with
`limit`, and every other mode string falls into the `else` branch, which runs
`_hybrid_search` (fetching `3 * limit` candidates from each source).  The
sub-searches are passed in as functions of their fetch limit. -/
def searchDispatch (mode : String) (ftsRun vecRun : ℕ → List ℕ) (limit : ℕ) :
    List ℕ :=
  if mode = "fts" then ftsRun limit
  else if mode = "vector" then vecRun limit
  else hybridSearchIds (ftsRun (3 * limit)) (vecRun (3 * limit)) limit

/-- ASCII `[a-z]` of the criterion regex, by code point. -/
def isLatinLower (c : Char) : Bool :=
  97 ≤ c.toNat && c.toNat ≤ 122

/-- The bullet glyphs of the criterion regex
(`[•‣◦⁃∙•]`; `•` is `•` again). -/
def isBulletChar (c : Char) : Bool :=
  c = '•' || c = '‣' || c = '◦' || c = '⁃' || c = '∙'

/-- The dash alternatives of the criterion regex (`[-–—]`). -/
def isDashChar (c : Char) : Bool :=
  c = '-' || c = '–' || c = '—'

/-- Which capture group of the criterion regex matched: `(\d+)[.\)]`,
`\((\d+)\)`, `([a-z])[.\)]`, `\(([a-z])\)`, a bullet glyph, or a dash.
Mirrors the 4-tuple `(num1, num2, letter1, letter2)` of
`ProtocolChunker._chunk_criteria`. -/
inductive MarkerCap where
  | num1 (ds : List Char)
  | num2 (ds : List Char)
  | letter1 (c : Char)
  | letter2 (c : Char)
  | bullet
  | dash
deriving DecidableEq, Repr

/-- Parse the marker alternation of the criterion regex at the head of `cs`:
`(\d+)[.\)] | \((\d+)\) | ([a-z])[.\)] | \(([a-z])\) | bullet | dash`.
The alternatives are tried in regex order; their first characters are
pairwise disjoint character classes, so the regex backtracking collapses to
this single deterministic case split.  Returns the capture and the remaining
characters. -/
def parseMarker (cs : List Char) : Option (MarkerCap × List Char) :=
  match cs.takeWhile Char.isDigit with
  | d0 :: ds =>
      match cs.drop (d0 :: ds).length with
      | c :: r => if c = '.' || c = ')' then some (.num1 (d0 :: ds), r) else none
      | [] => none
  | [] =>
      match cs with
      | '(' :: t =>
          match t.takeWhile Char.isDigit with
          | d0 :: ds2 =>
              match t.drop (d0 :: ds2).length with
              | ')' :: r => some (.num2 (d0 :: ds2), r)
              | _ => none
          | [] =>
              match t with
              | c :: ')' :: r =>
                  if isLatinLower c then some (.letter2 c, r) else none
              | _ => none
      | c :: t =>
          if isLatinLower c then
            match t with
            | d :: r => if d = '.' || d = ')' then some (.letter1 c, r) else none
            | [] => none
          else if isBulletChar c then some (.bullet, t)
          else if isDashChar c then some (.dash, t)
          else none
      | [] => none

/-- The lookahead of the criterion regex body:
`(?=(?:\n\s*(?:marker))|$)` with `re.DOTALL` and no `re.MULTILINE`, so `$`
matches at the end of the string or just before a final newline, and the
newline branch requires a marker after the greedy `\s*` (markers never start
with whitespace, so only the maximal whitespace run needs checking). -/
def lookaheadHolds (t : List Char) : Bool :=
  match t with
  | [] => true
  | ['\n'] => true
  | '\n' :: rest => ((parseMarker (rest.dropWhile isPySpace)).isSome : Bool)
  | _ => false

/-- The non-greedy body `(.+?)` of the criterion regex: consume at least one
character (any character, `re.DOTALL`), stopping at the first position where
the lookahead holds.  Returns the body and the remaining characters.  The
empty-input case is unreachable (callers guarantee a non-empty argument). -/
def findBodyGo : List Char → List Char × List Char
  | [] => ([], [])
  | c :: cs =>
      if lookaheadHolds cs then ([c], cs)
      else
        let p := findBodyGo cs
        (c :: p.1, p.2)

/-- One match attempt of the criterion regex with its anchor placed at the
head of `cs` (either position 0 via `^`, or a `\n`; in both cases the greedy
`\s*` then skips all whitespace before the marker, and since no marker starts
with whitespace only the maximal skip can succeed).  After the marker, the
greedy `\s*` takes the whole whitespace run `w` except when nothing else
follows, in which case it backtracks exactly one character so that the body
`(.+?)` is non-empty (the lookahead `$` then accepts at the end).  Returns
the capture, the body, and the rest of the string after the match. -/
def attemptAt (cs : List Char) : Option (MarkerCap × List Char × List Char) :=
  let m := cs.dropWhile isPySpace
  match parseMarker m with
  | none => none
  | some (cap, r) =>
      if r = [] then none
      else
        let w := (r.takeWhile isPySpace).length
        let k := if w = r.length then w - 1 else w
        let p := findBodyGo (r.drop k)
        some (cap, p.1, p.2)

/-- One capture tuple of `criterion_pattern.findall`. -/
structure RegexMatch where
  cap : MarkerCap
  body : List Char
deriving DecidableEq, Repr

/-- Scan for further matches: `re.findall` retries at every position, and a
match can only start at a `\n` (the `^` of `(?:^|\n)` only matches at
position 0, which `findallCriterion` handles).  After a successful match the
scan resumes at the match end.  The fuel is the scan length; every step
consumes at least one character, so `length cs` fuel never runs out. -/
def scanAux : ℕ → List Char → List RegexMatch
  | 0, _ => []
  | _, [] => []
  | fuel + 1, c :: cs =>
      if c = '\n' then
        match attemptAt (c :: cs) with
        | some (cap, body, rest) => ⟨cap, body⟩ :: scanAux fuel rest
        | none => scanAux fuel cs
      else scanAux fuel cs

/-- `criterion_pattern.findall(text)` of `_chunk_criteria`: one attempt at
position 0 (the `^` anchor), then a scan over the `\n` positions. -/
def findallCriterion (text : List Char) : List RegexMatch :=
  match attemptAt text with
  | some (cap, body, rest) => ⟨cap, body⟩ :: scanAux text.length rest
  | none =>
      match text with
      | [] => []
      | _ :: cs => scanAux text.length cs

/-- Python `int()` on a digit string. -/
def digitsToNat (ds : List Char) : ℕ :=
  ds.foldl (fun n c => n * 10 + (c.toNat - 48)) 0

/-- The criterion number assigned by the `for i, match in enumerate(matches)`
loop of `_chunk_criteria`: digits parse with `int`, letters map through
`ord(letter.lower()) - ord("a") + 1`, bullets and dashes fall back to
`i + 1`.  Python integers are signed, hence `ℤ`. -/
def matchNumber (i : ℕ) (m : RegexMatch) : ℤ :=
  match m.cap with
  | .num1 ds => (digitsToNat ds : ℤ)
  | .num2 ds => (digitsToNat ds : ℤ)
  | .letter1 c => (c.toLower.toNat : ℤ) - 97 + 1
  | .letter2 c => (c.toLower.toNat : ℤ) - 97 + 1
  | .bullet => (i : ℤ) + 1
  | .dash => (i : ℤ) + 1

/-- Python `str.lower()` restricted to the characters exercised here. -/
def toLowerStr (s : List Char) : List Char :=
  s.map Char.toLower

/-- Python substring containment `needle in hay`. -/
def containsSub (hay needle : List Char) : Bool :=
  (List.range (hay.length + 1)).any (fun i => needle.isPrefixOf (hay.drop i))

/-- Python `any(term in text_lower for term in terms)`. -/
def anyTerm (tl : List Char) (terms : List String) : Bool :=
  terms.any (fun t => containsSub tl t.toList)

/-- `ProtocolChunker._categorize_criterion`: first matching keyword rule
wins, in source order. -/
def categorizeCriterion (text : List Char) : Option String :=
  let tl := toLowerStr text
  if anyTerm tl ["age", "year", "old", "adult", "pediatric", "elderly"] then
    some "demographic"
  else if anyTerm tl ["male", "female", "gender", "sex", "pregnant", "nursing"] then
    some "demographic"
  else if anyTerm tl
      ["diagnosis", "confirmed", "histolog", "patholog", "disease", "condition"] then
    some "clinical"
  else if anyTerm tl
      ["lab", "laboratory", "hemoglobin", "creatinine", "bilirubin", "ast", "alt",
       "wbc", "platelet"] then
    some "laboratory"
  else if anyTerm tl ["prior", "previous", "therapy", "treatment", "medication", "drug"] then
    some "prior_treatment"
  else if anyTerm tl ["consent", "willing", "able to"] then
    some "consent"
  else if anyTerm tl ["contraception", "birth control", "fertile"] then
    some "reproductive"
  else none

/-- `"inclusion" if "inclusion" in section_type else "exclusion"`. -/
def criterionTypeOf (sectionType : String) : String :=
  if containsSub sectionType.toList "inclusion".toList then "inclusion" else "exclusion"

/-- A chunk produced by `_chunk_criteria` (the fields of the `Chunk`
dataclass that this path populates). -/
structure CritChunk where
  chunkText : List Char
  chunkType : String
  sectionType : String
  criterionType : String
  criterionNumber : ℤ
  category : Option String
deriving DecidableEq, Repr

/-- The `if matches:` loop of `_chunk_criteria`: strip each body, keep it
when non-empty and longer than 10 characters, numbering via `matchNumber`
with the running enumeration index `i`. -/
def chunksFromMatches (sectionType : String) : List RegexMatch → ℕ → List CritChunk
  | [], _ => []
  | m :: ms, i =>
      let ct := pyStrip m.body
      if ct ≠ [] ∧ 10 < ct.length then
        ⟨ct, "criterion", sectionType, criterionTypeOf sectionType,
          matchNumber i m, categorizeCriterion ct⟩ :: chunksFromMatches sectionType ms (i + 1)
      else chunksFromMatches sectionType ms (i + 1)

/-- Python `text.split("\n")` (keeps empty pieces). -/
def pySplitChar (sep : Char) : List Char → List (List Char)
  | [] => [[]]
  | c :: cs =>
      let r := pySplitChar sep cs
      if c = sep then [] :: r
      else
        match r with
        | [] => [[c]]
        | w :: ws => (c :: w) :: ws

/-- The fallback branch of `_chunk_criteria` (zero regex matches): each
stripped line longer than 20 characters becomes one criterion, numbered by a
counter that starts at 0 and is incremented before use. -/
def fallbackChunks (sectionType : String) : List (List Char) → ℕ → List CritChunk
  | [], _ => []
  | line :: rest, n =>
      let l := pyStrip line
      if l ≠ [] ∧ 20 < l.length then
        ⟨l, "criterion", sectionType, criterionTypeOf sectionType,
          (n : ℤ) + 1, categorizeCriterion l⟩ :: fallbackChunks sectionType rest (n + 1)
      else fallbackChunks sectionType rest n

/-- `ProtocolChunker._chunk_criteria`: regex extraction when the pattern
matches anywhere, else the line-based fallback. -/
def chunkCriteria (text : List Char) (sectionType : String) : List CritChunk :=
  let ms := findallCriterion text
  if ms ≠ [] then chunksFromMatches sectionType ms 0
  else fallbackChunks sectionType (pySplitChar '\n' text) 0

/-- Python `sum(...)` over rationals: left fold starting at 0. -/
def pySum (l : List ℚ) : ℚ :=
  l.foldl (fun a x => a + x) 0

/-- `VectorSearch._cosine_similarity` (vector.py lines 102-113): mismatched
lengths short-circuit to `0.0` before any arithmetic; zero norms also give
`0.0`; otherwise the dot product over `zip` divided by the norm product.
`math.sqrt` is passed in explicitly (see the module docstring). -/
def cosineSimilarityVec (sqrt : ℚ → ℚ) (a b : List ℚ) : ℚ :=
  if a.length ≠ b.length then 0
  else
    let dp := pySum ((a.zip b).map (fun p => p.1 * p.2))
    let na := sqrt (pySum (a.map (fun x => x * x)))
    let nb := sqrt (pySum (b.map (fun x => x * x)))
    if na = 0 ∨ nb = 0 then 0 else dp / (na * nb)

/-- The candidate loop of `VectorSearch.search`: every fetched row gets a
similarity score against the query embedding; no row is skipped and no row
can abort the scan. -/
def vectorScanScores (sqrt : ℚ → ℚ) (queryEmb : List ℚ)
    (rows : List (ℕ × List ℚ)) : List (ℕ × ℚ) :=
  rows.map (fun r => (r.1, cosineSimilarityVec sqrt queryEmb r.2))

/-- `ProtocolComparer._cosine_similarity` (comparison.py lines 262-273):
identical to the vector-search one except that it has no length check
(`zip` silently truncates). -/
def cosineSimilarityCmp (sqrt : ℚ → ℚ) (a b : List ℚ) : ℚ :=
  let dp := pySum ((a.zip b).map (fun p => p.1 * p.2))
  let na := sqrt (pySum (a.map (fun x => x * x)))
  let nb := sqrt (pySum (b.map (fun x => x * x)))
  if na = 0 ∨ nb = 0 then 0 else dp / (na * nb)

/-- `ProtocolComparer.SIMILARITY_THRESHOLD = 0.85`. -/
def SIMILARITY_THRESHOLD : ℚ := 85 / 100

/-- A pooled criterion record as consumed by `_find_similar_criteria`: its
database id, the owning protocol (`c["protocol_id"]`), and its embedding. -/
structure Crit where
  id : ℕ
  protocolId : String
  emb : List ℚ
deriving DecidableEq, Repr

/-- One entry of the `similar_pairs` list: the two criteria (in loop order)
and the similarity that admitted them. -/
structure CritPair where
  c1 : Crit
  c2 : Crit
  similarity : ℚ
deriving DecidableEq, Repr

/-- The inner loop of `_find_similar_criteria` for a fixed `c1`: walk the
tail `all_criteria[i+1:]`, skip same-protocol partners, and keep every pair
whose similarity meets the threshold.  No deduplication is applied. -/
def pairsWith (sqrt : ℚ → ℚ) (c : Crit) (rest : List Crit) : List CritPair :=
  rest.filterMap (fun d =>
    if d.protocolId = c.protocolId then none
    else
      let s := cosineSimilarityCmp sqrt c.emb d.emb
      if SIMILARITY_THRESHOLD ≤ s then some ⟨c, d, s⟩ else none)

/-- `ProtocolComparer._find_similar_criteria` (comparison.py lines 235-260):
the nested `for i, c1 in enumerate(...): for c2 in all_criteria[i+1:]`
loops, appending every qualifying cross-protocol pair in encounter order. -/
def findSimilarCriteria (sqrt : ℚ → ℚ) : List Crit → List CritPair
  | [] => []
  | c :: rest => pairsWith sqrt c rest ++ findSimilarCriteria sqrt rest

/-- Floor integer square root, used to build an exact `math.sqrt` stand-in
on perfect squares (float `sqrt` is exact there).  Written as a filter count
so that kernel reduction (`decide`) works. -/
def natSqrtFloor (n : ℕ) : ℕ :=
  ((List.range (n + 1)).filter (fun k => k * k ≤ n)).length - 1

/-- A computable square-root model: exact on rationals whose numerator and
denominator are perfect squares — every point at which the concrete theorems
below evaluate a norm — and a floor approximation elsewhere. -/
def sqrtQ (q : ℚ) : ℚ :=
  (natSqrtFloor q.num.toNat : ℚ) / (natSqrtFloor q.den : ℚ)

/-- Round half to even to an integer — the tie-breaking used by IEEE-754
conversions. -/
def rhe (x : ℚ) : ℤ :=
  let f := ⌊x⌋
  if x - f < 1 / 2 then f
  else if 1 / 2 < x - f then f + 1
  else if f % 2 = 0 then f else f + 1

/-- The value stored for one component by
`struct.pack(f"{len(embedding)}f", *embedding)` in `_store_document`
(ingest.py lines 169-174): the C `float` (binary32) nearest the Python
float, i.e. the input rounded to a 24-bit significand, round half to even.
`struct.unpack(f"{dim}f", blob)` in `VectorSearch.search` widens that value
back to a Python float exactly, and pack/unpack are mutual inverses on the
stored 4-byte patterns, so this rounding is the entire round-trip value
change.  Exponent-range overflow/underflow of binary32 is not modelled: the
claims evaluate only values of modest magnitude. -/
def roundF32 (q : ℚ) : ℚ :=
  if q = 0 then 0
  else
    let e := Int.log 2 |q|
    let scaled := |q| * (2 : ℚ) ^ ((23 : ℤ) - e)
    let n := rhe scaled
    (if q < 0 then -1 else 1) * (n : ℚ) * (2 : ℚ) ^ (e - 23)

/-- The embedding blob written by `_store_document`, at value level: each
component converted to its 4-byte float. -/
def packEmbedding (v : List ℚ) : List ℚ :=
  v.map roundF32

/-- The decode in `VectorSearch.search`: `struct.unpack` reproduces the
stored 4-byte float values exactly (widening is lossless). -/
def unpackEmbedding (blob : List ℚ) : List ℚ :=
  blob

/-- Encode a vector to the persisted layout and decode it again. -/
def roundTripEmbedding (v : List ℚ) : List ℚ :=
  unpackEmbedding (packEmbedding v)

/-- A rational carrying at most 24 significant bits — the values a binary32
significand represents exactly (exponent range aside). -/
def IsFloat32 (q : ℚ) : Prop :=
  q = 0 ∨ ∃ (m : ℕ) (e : ℤ),
    2 ^ 23 ≤ m ∧ m < 2 ^ 24 ∧ |q| = (m : ℚ) * (2 : ℚ) ^ (e - 23)

/-- Row of the `documents` table, with the columns `_store_document`
inserts. -/
structure DocumentRow where
  id : ℕ
  filename : String
  filepath : String
  fileHash : String
  fileType : String
  title : Option String
  protocolId : Option String
  version : Option String
  sponsor : Option String
  indication : Option String
  phase : Option String
  metadata : String
deriving DecidableEq

/-- Row of the `sections` table. -/
structure SectionRow where
  id : ℕ
  documentId : ℕ
  sectionType : String
  sectionNumber : Option String
  title : Option String
  level : ℕ
  startPage : Option ℕ
  endPage : Option ℕ
  rawText : Option String
deriving DecidableEq

/-- Row of the `chunks` table. -/
structure ChunkRow where
  id : ℕ
  documentId : ℕ
  sectionId : Option ℕ
  chunkIndex : ℕ
  chunkText : String
  chunkType : String
  pageNumber : Option ℕ
  metadata : String
deriving DecidableEq

/-- Row of the `embeddings` table (blob at value level, see `roundF32`). -/
structure EmbeddingRow where
  id : ℕ
  chunkId : ℕ
  blob : List ℚ
deriving DecidableEq

/-- Row of the `eligibility_criteria` table. -/
structure CriterionRow where
  id : ℕ
  documentId : ℕ
  criterionType : String
  criterionNumber : Option ℤ
  criterionText : String
  category : Option String
  chunkId : ℕ
deriving DecidableEq

/-- The committed database state visible to readers. -/
structure DBState where
  documents : List DocumentRow
  sections : List SectionRow
  chunks : List ChunkRow
  embeddings : List EmbeddingRow
  criteria : List CriterionRow
deriving DecidableEq

/-- The `doc_data` argument of `_store_document` (fields read by the
document INSERT, plus the section list). -/
structure SectionData where
  index : Option ℕ
  sectionType : String
  sectionNumber : Option String
  title : Option String
  level : ℕ
  startPage : Option ℕ
  endPage : Option ℕ
  rawText : Option String
deriving DecidableEq

structure DocData where
  filename : String
  filepath : String
  fileHash : String
  fileType : String
  title : Option String
  protocolId : Option String
  version : Option String
  sponsor : Option String
  indication : Option String
  phase : Option String
  metadata : String
  sections : List SectionData
deriving DecidableEq

/-- One chunk dictionary as passed to `_store_document`. -/
structure ChunkData where
  chunkText : String
  chunkType : String
  sectionIndex : Option ℕ
  pageNumber : Option ℕ
  metadata : String
  criterionType : String
  criterionNumber : Option ℤ
  category : Option String
deriving DecidableEq

/-- Last-wins association lookup, the behaviour of a Python dict built by
repeated assignment (`section_id_map[key] = value`). -/
def dictLookup (m : List (ℕ × ℕ)) (k : Option ℕ) : Option ℕ :=
  match k with
  | none => none
  | some key =>
      (m.reverse.find? (fun p => p.1 = key)).map (fun p => p.2)

/-- An INSERT may raise (constraint violation, I/O error, ...).  The oracle
says which execution step (counted from 0 inside one `_store_document` call)
raises, so that the rollback theorem quantifies over every failure point. -/
def FailOracle : Type := ℕ → Bool

/-- The section-insert loop of `_store_document` (ingest.py lines 128-147),
threading the section-id map, the database state, and the step counter. -/
def insertSections (oracle : FailOracle) (docId : ℕ) :
    List SectionData → List (ℕ × ℕ) → DBState → ℕ →
    Except String (List (ℕ × ℕ) × DBState × ℕ)
  | [], m, db, n => .ok (m, db, n)
  | s :: rest, m, db, n =>
      if oracle n then .error "INSERT INTO sections failed"
      else
        let sid := db.sections.length + 1
        insertSections oracle docId rest (m ++ [(s.index.getD 0, sid)])
          { db with sections := db.sections ++
              [SectionRow.mk sid docId s.sectionType s.sectionNumber s.title
                s.level s.startPage s.endPage s.rawText] }
          (n + 1)

/-- The chunk/embedding/criteria loop of `_store_document` (ingest.py lines
150-193): for each `(chunk, embedding)` pair, insert the chunk row, then its
embedding blob, then — when the chunk is of kind `criterion` — the derived
eligibility-criteria row. -/
def insertChunks (oracle : FailOracle) (docId : ℕ) (secMap : List (ℕ × ℕ)) :
    List (ChunkData × List ℚ) → ℕ → DBState → ℕ →
    Except String (DBState × ℕ)
  | [], _, db, n => .ok (db, n)
  | (c, emb) :: rest, i, db, n =>
      if oracle n then .error "INSERT INTO chunks failed"
      else
        let chunkId := db.chunks.length + 1
        let db1 := { db with chunks := db.chunks ++
          [ChunkRow.mk chunkId docId (dictLookup secMap c.sectionIndex) i
            c.chunkText c.chunkType c.pageNumber c.metadata] }
        if oracle (n + 1) then .error "INSERT INTO embeddings failed"
        else
          let db2 := { db1 with embeddings := db1.embeddings ++
            [EmbeddingRow.mk (db1.embeddings.length + 1) chunkId
              (packEmbedding emb)] }
          if c.chunkType = "criterion" then
            if oracle (n + 2) then .error "INSERT INTO eligibility_criteria failed"
            else
              let db3 := { db2 with criteria := db2.criteria ++
                [CriterionRow.mk (db2.criteria.length + 1) docId c.criterionType
                  c.criterionNumber c.chunkText c.category chunkId] }
              insertChunks oracle docId secMap rest (i + 1) db3 (n + 3)
          else insertChunks oracle docId secMap rest (i + 1) db2 (n + 2)

/-- The body of `_store_document`: document row, then sections, then the
chunk loop; returns the new document id.  All of it runs inside one
`with db.cursor()` block. -/
def storeDocumentBody (oracle : FailOracle) (d : DocData)
    (chunks : List ChunkData) (embeddings : List (List ℚ)) (db : DBState) :
    Except String (ℕ × DBState) :=
  if oracle 0 then .error "INSERT INTO documents failed"
  else
    let docId := db.documents.length + 1
    let db1 := { db with documents := db.documents ++
      [DocumentRow.mk docId d.filename d.filepath d.fileHash d.fileType
        d.title d.protocolId d.version d.sponsor d.indication d.phase
        d.metadata] }
    match insertSections oracle docId d.sections [] db1 1 with
    | .error e => .error e
    | .ok (secMap, db2, n) =>
        match insertChunks oracle docId secMap (chunks.zip embeddings) 0 db2 n with
        | .error e => .error e
        | .ok (db3, _) => .ok (docId, db3)

/-- `Database.cursor` (database.py lines 149-161): run the body, commit on
success, roll back and re-raise on any exception.  The committed state is
returned alongside the outcome; on error it is the entry state. -/
def dbCursor (body : DBState → Except String (ℕ × DBState)) (db : DBState) :
    Except String ℕ × DBState :=
  match body db with
  | .ok (a, dbNew) => (.ok a, dbNew)
  | .error e => (.error e, db)

/-- `_store_document`: the whole insert sequence inside a single cursor
context manager. -/
def storeDocument (oracle : FailOracle) (d : DocData) (chunks : List ChunkData)
    (embeddings : List (List ℚ)) (db : DBState) : Except String ℕ × DBState :=
  dbCursor (storeDocumentBody oracle d chunks embeddings) db

/-- Does a digit capture of a match parse to a nonzero integer?
(Non-digit captures qualify trivially.) -/
def capDigitsNonzero (m : RegexMatch) : Bool :=
  match m.cap with
  | .num1 ds => digitsToNat ds != 0
  | .num2 ds => digitsToNat ds != 0
  | _ => true

/-- Are the letter captures of a marker ASCII lowercase letters?
(Non-letter captures qualify trivially.) -/
def capLettersLower (cap : MarkerCap) : Bool :=
  match cap with
  | .letter1 c => isLatinLower c
  | .letter2 c => isLatinLower c
  | _ => true

/-- Claim C10: the search entry point never rejects its mode argument — for
every mode string other than `"fts"` and `"vector"` (including `"hybrid"`
and any misspelling) it executes the hybrid fusion path. -/
theorem search_mode_defaults_to_hybrid (mode : String) (ftsRun vecRun : ℕ → List ℕ)
    (limit : ℕ) (h1 : mode ≠ "fts") (h2 : mode ≠ "vector") :
    searchDispatch mode ftsRun vecRun limit =
      hybridSearchIds (ftsRun (3 * limit)) (vecRun (3 * limit)) limit := by
  unfold searchDispatch
  rw [if_neg h1, if_neg h2]

/-- Witness for C10 at the misspelled mode string `"hybird"`. -/
theorem search_mode_defaults_to_hybrid_witness :
    ("hybird" : String) ≠ "fts" ∧ ("hybird" : String) ≠ "vector" ∧
    searchDispatch "hybird" (fun _ => [1]) (fun _ => [2]) 5 =
      hybridSearchIds [1] [2] 5 :=
  ⟨by decide, by decide,
    search_mode_defaults_to_hybrid "hybird" (fun _ => [1]) (fun _ => [2]) 5
      (by decide) (by decide)⟩

/-- Claim C3: storing a document is atomic — whenever `_store_document`
raises (at any of the document/section/chunk/embedding/criteria INSERTs, as
chosen by the failure oracle), the visible database state after the
`Database.cursor` rollback equals the state before the call. -/
theorem store_document_rolls_back (oracle : FailOracle) (d : DocData)
    (chunks : List ChunkData) (embeddings : List (List ℚ)) (db : DBState)
    (e : String)
    (h : (storeDocument oracle d chunks embeddings db).1 = .error e) :
    (storeDocument oracle d chunks embeddings db).2 = db := by
  unfold storeDocument dbCursor at h ⊢
  cases hb : storeDocumentBody oracle d chunks embeddings db with
  | ok p => simp [hb] at h
  | error e2 => simp [hb]

/-- Witness for C3: a failure at the very first INSERT leaves an arbitrary
pre-existing state untouched. -/
theorem store_document_rolls_back_witness :
    (storeDocument (fun _ => true)
        ⟨"p.pdf", "/p.pdf", "h", "pdf", none, none, none, none, none, none,
          "", []⟩
        [] [] ⟨[], [], [], [], []⟩).1 =
      .error "INSERT INTO documents failed" ∧
    (storeDocument (fun _ => true)
        ⟨"p.pdf", "/p.pdf", "h", "pdf", none, none, none, none, none, none,
          "", []⟩
        [] [] ⟨[], [], [], [], []⟩).2 = ⟨[], [], [], [], []⟩ :=
  ⟨rfl,
    store_document_rolls_back (fun _ => true) _ [] [] ⟨[], [], [], [], []⟩
      "INSERT INTO documents failed" rfl⟩

/-- Claim C7: during a vector scan a stored embedding whose dimension
differs from the query embedding scores exactly 0 (the mismatch check of
`_cosine_similarity` fires before any arithmetic), and the scan still scores
every fetched row. -/
theorem vector_scan_dim_mismatch (sqrt : ℚ → ℚ) (queryEmb : List ℚ)
    (rows : List (ℕ × List ℚ)) :
    (vectorScanScores sqrt queryEmb rows).length = rows.length ∧
    ∀ p ∈ rows, p.2.length ≠ queryEmb.length →
      (p.1, (0 : ℚ)) ∈ vectorScanScores sqrt queryEmb rows := by
  constructor
  · simp [vectorScanScores]
  · intro p hp hlen
    have hz : cosineSimilarityVec sqrt queryEmb p.2 = 0 := by
      unfold cosineSimilarityVec
      rw [if_pos (fun hc => hlen hc.symm)]
    have hmem := List.mem_map_of_mem
      (fun r => (r.1, cosineSimilarityVec sqrt queryEmb r.2)) hp
    simp only at hmem
    rw [hz] at hmem
    exact hmem

/-- Witness for C7: a 2-dimensional row against a 1-dimensional query. -/
theorem vector_scan_dim_mismatch_witness :
    (vectorScanScores (fun x => x) [1] [(5, [1, 2])]).length = 1 ∧
    ((5 : ℕ), (0 : ℚ)) ∈ vectorScanScores (fun x => x) [1] [(5, [1, 2])] :=
  ⟨(vector_scan_dim_mismatch (fun x => x) [1] [(5, [1, 2])]).1,
    (vector_scan_dim_mismatch (fun x => x) [1] [(5, [1, 2])]).2 (5, [1, 2])
      (List.mem_singleton.mpr rfl) (by decide)⟩

/-- Claim C1: the fused score adds `1/(K + rank)` per source containing the
chunk with `K = RRF_K = 60`; a chunk ranked first in both lists scores
exactly `2/(K+1)`, strictly above the `1/(K+1)` of a chunk ranked first in
just one list. -/
theorem rrf_top_scores (fts1 vec1 : List ℕ) (c : ℕ) (fts2 vec2 : List ℕ)
    (d : ℕ) (hc1 : rankOf fts1 c = some 1) (hc2 : rankOf vec1 c = some 1)
    (hd1 : rankOf fts2 d = some 1) (hd2 : rankOf vec2 d = none) :
    rrfScore fts1 vec1 c = 2 / ((RRF_K : ℚ) + 1) ∧
    rrfScore fts2 vec2 d = 1 / ((RRF_K : ℚ) + 1) ∧
    rrfScore fts2 vec2 d < rrfScore fts1 vec1 c := by
  unfold rrfScore
  rw [hc1, hc2, hd1, hd2]
  norm_num [RRF_K]

/-- Witness for C1: chunk 3 tops both lists, chunk 4 tops only the lexical
list. -/
theorem rrf_top_scores_witness :
    rrfScore [3] [3] 3 = 2 / ((RRF_K : ℚ) + 1) ∧
    rrfScore [4] [] 4 = 1 / ((RRF_K : ℚ) + 1) ∧
    rrfScore [4] [] 4 < rrfScore [3] [3] 3 :=
  rrf_top_scores [3] [3] 3 [4] [] 4 (by decide) (by decide) (by decide)
    (by decide)

/-- Counterexample to claim C5: the query `"a"` loses its only token to the
length-≥-2 filter, yet `_build_fts_query` returns the phrase query `"a"`
(which matches chunks containing the token `a`), not the match-nothing query
`""`. -/
theorem build_fts_query_short_word_counterexample :
    buildFtsQuery ['a'] = ['"', 'a', '"'] ∧ buildFtsQuery ['a'] ≠ ['"', '"'] := by
  decide

/-- Claim C5 as amended: a query with no words at all after
special-character stripping and whitespace splitting (in particular the
empty query) yields the explicit match-nothing query `""`; but a query whose
every word is shorter than 2 characters instead yields a phrase query of the
whole stripped text. -/
theorem build_fts_query_empty_words (q : List Char) (h : ftsWords q = []) :
    buildFtsQuery q = ['"', '"'] := by
  unfold buildFtsQuery
  rw [h]
  simp

/-- Witness for amended C5: a query of only special characters and spaces. -/
theorem build_fts_query_empty_words_witness :
    ftsWords "(): *".toList = [] ∧ buildFtsQuery "(): *".toList = ['"', '"'] :=
  ⟨by decide, build_fts_query_empty_words ("(): *".toList) (by decide)⟩

/-- Counterexample to claim C2: on the spec's own example input the
Segmenter does not yield two criterion chunks numbered 1 and 2 — the first
item `Age ≥ 18` is only 8 characters long, so the `len(criterion_text) > 10`
noise filter of `_chunk_criteria` drops it, leaving a single chunk numbered
2. -/
theorem chunk_criteria_example_counterexample :
    ((chunkCriteria ("1. Age ≥ 18\n2. Prior diagnosis of X".toList)
        "inclusion_criteria").map (fun c => c.criterionNumber)) = [2] ∧
    (chunkCriteria ("1. Age ≥ 18\n2. Prior diagnosis of X".toList)
        "inclusion_criteria").length ≠ 2 := by
  decide

/-- Claim C2 as amended: on the numbered example input exactly one
`criterion` chunk survives, numbered 2 (the ≤10-character first item is
discarded); lettered markers with item bodies longer than 10 characters
produce chunks numbered 1 and 2. -/
theorem chunk_criteria_example_amended :
    ((chunkCriteria ("1. Age ≥ 18\n2. Prior diagnosis of X".toList)
        "inclusion_criteria").map
        (fun c => (c.criterionNumber, c.chunkType))) = [(2, "criterion")] ∧
    ((chunkCriteria
        ("a) Histologically confirmed diagnosis\nb) Adequate organ function documented".toList)
        "inclusion_criteria").map
        (fun c => (c.criterionNumber, c.chunkType))) =
      [(1, "criterion"), (2, "criterion")] := by
  decide

/-- `Char.toLower` fixes ASCII lowercase letters (their code points exceed
the upper-case range it rewrites). -/
theorem toLower_of_latinLower (c : Char) (h : isLatinLower c = true) :
    Char.toLower c = c := by
  unfold isLatinLower at h
  simp only [Bool.and_eq_true, decide_eq_true_eq] at h
  unfold Char.toLower
  rw [if_neg]
  omega

/-- Every letter capture produced by the marker alternation is an ASCII
lowercase letter (the `[a-z]` classes guard those branches). -/
theorem parseMarker_caps (cs : List Char) (cap : MarkerCap) (r : List Char)
    (h : parseMarker cs = some (cap, r)) : capLettersLower cap = true := by
  unfold parseMarker at h
  repeat' split at h
  all_goals try exact Option.noConfusion h
  all_goals
    simp only [Option.some.injEq, Prod.mk.injEq] at h
  all_goals
    obtain ⟨h1, -⟩ := h
  all_goals
    subst h1
  all_goals
    simp_all [capLettersLower]

/-- Letter captures of a full match attempt are lowercase. -/
theorem attemptAt_caps (cs : List Char) (cap : MarkerCap) (body rest : List Char)
    (h : attemptAt cs = some (cap, body, rest)) : capLettersLower cap = true := by
  unfold attemptAt at h
  simp only [] at h
  split at h
  · simp at h
  · rename_i cap0 r heq
    split at h
    · simp at h
    · simp only [Option.some.injEq, Prod.mk.injEq] at h
      obtain ⟨h1, -, -⟩ := h
      subst h1
      exact parseMarker_caps _ _ _ heq

/-- Letter captures of the scan are lowercase. -/
theorem scanAux_caps : ∀ (fuel : ℕ) (cs : List Char) (m : RegexMatch),
    m ∈ scanAux fuel cs → capLettersLower m.cap = true := by
  intro fuel
  induction fuel with
  | zero => intro cs m h; simp [scanAux] at h
  | succ n ih =>
    intro cs m h
    cases cs with
    | nil => simp [scanAux] at h
    | cons c rest =>
      rw [scanAux] at h
      split at h
      · split at h
        · rename_i cap body rest2 heq
          rcases List.mem_cons.mp h with h1 | h2
          · subst h1; exact attemptAt_caps _ _ _ _ heq
          · exact ih _ _ h2
        · exact ih _ _ h
      · exact ih _ _ h

/-- Letter captures of `findall` are lowercase. -/
theorem findallCriterion_caps (text : List Char) (m : RegexMatch)
    (h : m ∈ findallCriterion text) : capLettersLower m.cap = true := by
  unfold findallCriterion at h
  split at h
  · rename_i cap body rest heq
    rcases List.mem_cons.mp h with h1 | h2
    · subst h1; exact attemptAt_caps _ _ _ _ heq
    · exact scanAux_caps _ _ _ h2
  · split at h
    · simp at h
    · exact scanAux_caps _ _ _ h

/-- Every chunk built from matches whose letter captures are lowercase and
whose digit captures are nonzero carries a number ≥ 1. -/
theorem chunksFromMatches_pos (sectionType : String) :
    ∀ (ms : List RegexMatch) (i : ℕ),
      (∀ m ∈ ms, capLettersLower m.cap = true ∧ capDigitsNonzero m = true) →
      ∀ c ∈ chunksFromMatches sectionType ms i, 1 ≤ c.criterionNumber := by
  intro ms
  induction ms with
  | nil => intro i h c hc; simp [chunksFromMatches] at hc
  | cons m rest ih =>
    intro i h c hc
    rw [chunksFromMatches] at hc
    split at hc
    · rcases List.mem_cons.mp hc with h1 | h2
      · subst h1
        show 1 ≤ matchNumber i m
        have hm := h m (List.mem_cons_self _ _)
        rcases hcap : m.cap with ds | ds | ch | ch | - | -
        · have hnz : digitsToNat ds ≠ 0 := by
            have h2 := hm.2
            unfold capDigitsNonzero at h2
            rw [hcap] at h2
            simpa using h2
          simp only [matchNumber, hcap]
          exact_mod_cast Nat.one_le_iff_ne_zero.mpr hnz
        · have hnz : digitsToNat ds ≠ 0 := by
            have h2 := hm.2
            unfold capDigitsNonzero at h2
            rw [hcap] at h2
            simpa using h2
          simp only [matchNumber, hcap]
          exact_mod_cast Nat.one_le_iff_ne_zero.mpr hnz
        · have hl : isLatinLower ch = true := by
            have h1 := hm.1
            unfold capLettersLower at h1
            rw [hcap] at h1
            exact h1
          have h97 : 97 ≤ ch.toNat := by
            unfold isLatinLower at hl
            simp only [Bool.and_eq_true, decide_eq_true_eq] at hl
            exact hl.1
          simp only [matchNumber, hcap, toLower_of_latinLower ch hl]
          omega
        · have hl : isLatinLower ch = true := by
            have h1 := hm.1
            unfold capLettersLower at h1
            rw [hcap] at h1
            exact h1
          have h97 : 97 ≤ ch.toNat := by
            unfold isLatinLower at hl
            simp only [Bool.and_eq_true, decide_eq_true_eq] at hl
            exact hl.1
          simp only [matchNumber, hcap, toLower_of_latinLower ch hl]
          omega
        · simp only [matchNumber, hcap]; omega
        · simp only [matchNumber, hcap]; omega
      · exact ih (i + 1) (fun x hx => h x (List.mem_cons_of_mem _ hx)) c h2
    · exact ih (i + 1) (fun x hx => h x (List.mem_cons_of_mem _ hx)) c hc

/-- Fallback chunks are numbered from an incremented counter and are always
≥ 1. -/
theorem fallbackChunks_pos (sectionType : String) :
    ∀ (ls : List (List Char)) (n : ℕ) (c : CritChunk),
      c ∈ fallbackChunks sectionType ls n → 1 ≤ c.criterionNumber := by
  intro ls
  induction ls with
  | nil => intro n c hc; simp [fallbackChunks] at hc
  | cons l rest ih =>
    intro n c hc
    rw [fallbackChunks] at hc
    split at hc
    · rcases List.mem_cons.mp hc with h1 | h2
      · subst h1
        show 1 ≤ (n : ℤ) + 1
        omega
      · exact ih (n + 1) c h2
    · exact ih n c hc

/-- Claim C9 as amended: every produced `criterion` chunk carries a number
≥ 1 provided no digit marker of the section parses to zero; a marker such as
`0.` yields criterion number 0 (see the counterexample). -/
theorem criterion_numbers_positive (text : List Char) (sectionType : String)
    (h : ∀ m ∈ findallCriterion text, capDigitsNonzero m = true) :
    ∀ c ∈ chunkCriteria text sectionType, 1 ≤ c.criterionNumber := by
  intro c hc
  unfold chunkCriteria at hc
  simp only [] at hc
  split at hc
  · exact chunksFromMatches_pos sectionType _ 0
      (fun m hm => ⟨findallCriterion_caps text m hm, h m hm⟩) c hc
  · exact fallbackChunks_pos sectionType _ 0 c hc

/-- Counterexample to claim C9 as stated: a section whose item is marked
`0.` produces a criterion chunk numbered 0, not ≥ 1. -/
theorem criterion_number_zero_counterexample :
    ((chunkCriteria ("0. This criterion has number zero".toList)
        "inclusion_criteria").map (fun c => c.criterionNumber)) = [0] ∧
    ¬ (∀ c ∈ chunkCriteria ("0. This criterion has number zero".toList)
        "inclusion_criteria", 1 ≤ c.criterionNumber) := by
  decide

/-- Witness for amended C9 on a section with a nonzero digit marker. -/
theorem criterion_numbers_positive_witness :
    (∀ m ∈ findallCriterion ("1. First inclusion criterion stated here".toList),
      capDigitsNonzero m = true) ∧
    ∀ c ∈ chunkCriteria ("1. First inclusion criterion stated here".toList)
        "inclusion_criteria", 1 ≤ c.criterionNumber :=
  ⟨by decide, criterion_numbers_positive _ "inclusion_criteria" (by decide)⟩

/-- Inserting into the stable sort permutes a cons. -/
theorem insertDesc_perm (score : ℕ → ℚ) (x : ℕ) (s : List ℕ) :
    (insertDesc score x s).Perm (x :: s) := by
  induction s with
  | nil => simp [insertDesc]
  | cons y ys ih =>
    rw [insertDesc]
    split
    · exact (ih.cons y).trans (List.Perm.swap x y ys)
    · exact List.Perm.refl _

/-- The stable sort is a permutation of its input. -/
theorem stableSortDesc_perm (score : ℕ → ℚ) (l : List ℕ) :
    (stableSortDesc score l).Perm l := by
  induction l with
  | nil => exact List.Perm.refl _
  | cons x xs ih =>
    rw [stableSortDesc]
    exact (insertDesc_perm score x (stableSortDesc score xs)).trans (ih.cons x)

/-- A list is a sublist of the result of inserting into it. -/
theorem sublist_insertDesc (score : ℕ → ℚ) (x : ℕ) (s : List ℕ) :
    s.Sublist (insertDesc score x s) := by
  induction s with
  | nil => simp [insertDesc]
  | cons y ys ih =>
    rw [insertDesc]
    split
    · exact List.cons_sublist_cons.mpr ih
    · exact List.sublist_cons_self x (y :: ys)

/-- An inserted element lands before every member whose score is not
strictly larger — in particular before every equal-scored member. -/
theorem insertDesc_pair (score : ℕ → ℚ) (x b : ℕ) :
    ∀ s, b ∈ s → ¬score x < score b → [x, b].Sublist (insertDesc score x s) := by
  intro s
  induction s with
  | nil => intro h; simp at h
  | cons y ys ih =>
    intro hmem hnlt
    rw [insertDesc]
    split
    · rename_i hlt
      rcases List.mem_cons.mp hmem with h1 | h2
      · exact absurd (h1 ▸ hlt) hnlt
      · exact (ih h2 hnlt).cons y
    · exact List.cons_sublist_cons.mpr (List.singleton_sublist.mpr hmem)

/-- Stability of the descending sort: two equal-scored elements keep their
relative order — the guarantee Python's `sorted` gives. -/
theorem stableSortDesc_stable (score : ℕ → ℚ) (a b : ℕ)
    (heq : score a = score b) :
    ∀ l, [a, b].Sublist l → [a, b].Sublist (stableSortDesc score l) := by
  intro l
  induction l with
  | nil => intro h; simp at h
  | cons x xs ih =>
    intro h
    rw [stableSortDesc]
    cases h with
    | cons a2 h2 => exact (ih h2).trans (sublist_insertDesc score x _)
    | cons₂ a2 h2 =>
      have hb : b ∈ stableSortDesc score xs :=
        (stableSortDesc_perm score xs).mem_iff.mpr (List.singleton_sublist.mp h2)
      exact insertDesc_pair score a b _ hb (by rw [heq]; exact lt_irrefl _)

/-- The set-iteration model lists ids in strictly ascending order. -/
theorem cpySetElems_pairwise (xs : List ℕ) :
    (cpySetElems xs).Pairwise (· < ·) :=
  (List.pairwise_lt_range 8).filter _

/-- Membership in the modelled set union. -/
theorem mem_cpySetElems (xs : List ℕ) (a : ℕ) :
    a ∈ cpySetElems xs ↔ a ∈ xs ∧ a < 8 := by
  simp [cpySetElems, List.mem_filter, List.mem_range, List.elem_iff, and_comm]

/-- In a strictly ascending list, two members in order form a sublist. -/
theorem pairwise_pair_sublist {l : List ℕ} (hp : l.Pairwise (· < ·)) {a b : ℕ}
    (ha : a ∈ l) (hb : b ∈ l) (hab : a < b) : [a, b].Sublist l := by
  induction l with
  | nil => simp at ha
  | cons x xs ih =>
    rcases List.pairwise_cons.mp hp with ⟨hx, hp2⟩
    rcases List.mem_cons.mp ha with h1 | h2
    · subst h1
      have hbxs : b ∈ xs := by
        rcases List.mem_cons.mp hb with hb1 | hb2
        · exact absurd (hb1 ▸ hab) (lt_irrefl _)
        · exact hb2
      exact List.cons_sublist_cons.mpr (List.singleton_sublist.mpr hbxs)
    · have hbxs : b ∈ xs := by
        rcases List.mem_cons.mp hb with hb1 | hb2
        · exfalso
          have hxa := hx a h2
          rw [hb1] at hab
          exact lt_irrefl x (hxa.trans hab)
        · exact hb2
      exact (ih hp2 h2 hbxs).cons x

/-- Claim C4 as amended: equal-scored chunks are returned in the iteration
order of the CPython set union of chunk ids — ascending chunk id in the
small-id regime — deterministically, but not in source-encounter order (see
the counterexample). -/
theorem hybrid_tie_break_set_order (ftsIds vecIds : List ℕ) (a b : ℕ)
    (hsmall : ∀ i ∈ ftsIds ++ vecIds, i < 8)
    (ha : a ∈ ftsIds ++ vecIds) (hb : b ∈ ftsIds ++ vecIds) (hab : a < b)
    (heq : rrfScore ftsIds vecIds a = rrfScore ftsIds vecIds b) :
    [a, b].Sublist (hybridRankedIds ftsIds vecIds) := by
  have hma : a ∈ cpySetElems (ftsIds ++ vecIds) :=
    (mem_cpySetElems _ _).mpr ⟨ha, hsmall a ha⟩
  have hmb : b ∈ cpySetElems (ftsIds ++ vecIds) :=
    (mem_cpySetElems _ _).mpr ⟨hb, hsmall b hb⟩
  exact stableSortDesc_stable _ a b heq _
    (pairwise_pair_sublist (cpySetElems_pairwise _) hma hmb hab)

/-- Witness for amended C4: a lexical-only chunk 1 and a vector-only chunk 2
tie and come back in ascending id order. -/
theorem hybrid_tie_break_set_order_witness :
    rrfScore [1] [2] 1 = rrfScore [1] [2] 2 ∧
    [1, 2].Sublist (hybridRankedIds [1] [2]) :=
  ⟨by simp [rrfScore, rankOf, rankFrom],
    hybrid_tie_break_set_order [1] [2] 1 2 (by decide) (by decide) (by decide)
      (by decide) (by simp [rrfScore, rankOf, rankFrom])⟩

/-- Counterexample to claim C4 as stated: with the lexical list `[2]` and
the vector list `[1]` the two chunks tie (both score `1/61`), the
source-encounter order is `[2, 1]`, yet `_hybrid_search` returns `[1, 2]` —
the Python set over the ids iterates ascending, and the stable sort keeps
that order for ties. -/
theorem hybrid_tie_not_encounter_order :
    rrfScore [2] [1] 2 = rrfScore [2] [1] 1 ∧
    encounterOrder [2] [1] = [2, 1] ∧
    hybridRankedIds [2] [1] = [1, 2] := by
  refine ⟨by simp [rrfScore, rankOf, rankFrom], by decide, ?_⟩
  have hset : cpySetElems ([2] ++ [1]) = [1, 2] := by decide
  unfold hybridRankedIds
  rw [hset]
  simp only [stableSortDesc, insertDesc]
  rw [if_neg]
  norm_num [rrfScore, rankOf, rankFrom]

/-- The comparer's cosine similarity of the unit vectors `[1]` and `[1]` is
exactly 1 (`math.sqrt(1.0) == 1.0`, which `sqrtQ` reproduces). -/
theorem cosineSimilarityCmp_one : cosineSimilarityCmp sqrtQ [1] [1] = 1 := by
  have h1 : natSqrtFloor 1 = 1 := by decide
  norm_num [cosineSimilarityCmp, pySum, sqrtQ, h1]

/-- Claim C6 as amended: `_find_similar_criteria` reports exactly the
cross-protocol ordered pairs meeting the threshold — with no deduplication,
so a criterion may appear in several reported pairs with the same partner
document (see the counterexample). -/
theorem comparer_pairs_characterization (sqrt : ℚ → ℚ) (cs : List Crit)
    (p : CritPair) :
    p ∈ findSimilarCriteria sqrt cs ↔
      [p.c1, p.c2].Sublist cs ∧ p.c1.protocolId ≠ p.c2.protocolId ∧
      p.similarity = cosineSimilarityCmp sqrt p.c1.emb p.c2.emb ∧
      SIMILARITY_THRESHOLD ≤ p.similarity := by
  induction cs with
  | nil =>
    rw [findSimilarCriteria]
    simp
  | cons c rest ih =>
    rw [findSimilarCriteria]
    constructor
    · intro h
      rcases List.mem_append.mp h with h1 | h2
      · unfold pairsWith at h1
        rcases List.mem_filterMap.mp h1 with ⟨d, hd, hpd⟩
        split at hpd
        · exact absurd hpd (by simp)
        · rename_i hproto
          simp only [] at hpd
          split at hpd
          · rename_i hθ
            simp only [Option.some.injEq] at hpd
            subst hpd
            exact ⟨List.cons_sublist_cons.mpr (List.singleton_sublist.mpr hd),
              fun hEq => hproto hEq.symm, rfl, hθ⟩
          · exact absurd hpd (by simp)
      · rcases ih.mp h2 with ⟨hs, hrest⟩
        exact ⟨hs.cons c, hrest⟩
    · rintro ⟨hsub, hproto, hsim, hθ⟩
      cases hsub with
      | cons a2 h2 =>
        exact List.mem_append_right _ (ih.mpr ⟨h2, hproto, hsim, hθ⟩)
      | cons₂ a2 h2 =>
        apply List.mem_append_left
        unfold pairsWith
        apply List.mem_filterMap.mpr
        refine ⟨p.c2, List.singleton_sublist.mp h2, ?_⟩
        rw [if_neg (fun he => hproto he.symm)]
        rw [if_pos (hsim ▸ hθ)]
        rw [← hsim]

/-- Witness for amended C6: one qualifying cross-protocol pair is
reported. -/
theorem comparer_pairs_characterization_witness :
    (⟨⟨1, "P1", [1]⟩, ⟨2, "P2", [1]⟩, cosineSimilarityCmp sqrtQ [1] [1]⟩ :
        CritPair) ∈
      findSimilarCriteria sqrtQ [⟨1, "P1", [1]⟩, ⟨2, "P2", [1]⟩] :=
  (comparer_pairs_characterization sqrtQ _ _).mpr
    ⟨List.Sublist.refl _, by decide, rfl,
      by rw [cosineSimilarityCmp_one]; norm_num [SIMILARITY_THRESHOLD]⟩

/-- Counterexample to claim C6 as stated: three criteria with identical
embeddings — criterion 1 in document P1, criteria 2 and 3 in document P2 —
produce TWO reported pairs containing criterion 1 with a partner from P2
(`(1,2)` and `(1,3)`): pairs are not deduplicated per partner document. -/
theorem comparer_pairs_not_dedup :
    (findSimilarCriteria sqrtQ
        [⟨1, "P1", [1]⟩, ⟨2, "P2", [1]⟩, ⟨3, "P2", [1]⟩]).map
      (fun p => (p.c1.id, p.c2.id, p.c2.protocolId)) =
      [(1, 2, "P2"), (1, 3, "P2")] := by
  have h21 : ¬("P2" : String) = "P1" := by decide
  have hth : (85 : ℚ) / 100 ≤ 1 := by norm_num
  simp [findSimilarCriteria, pairsWith, cosineSimilarityCmp_one,
    SIMILARITY_THRESHOLD, h21, hth]

/-- Characterization of `Int.log 2` on rationals by the enclosing power
bounds. -/
theorem int_log2_eq (q : ℚ) (e : ℤ) (h0 : 0 < q) (h1 : (2 : ℚ) ^ e ≤ q)
    (h2 : q < (2 : ℚ) ^ (e + 1)) : Int.log 2 q = e := by
  have hb : (1 : ℕ) < 2 := one_lt_two
  have hc : ((2 : ℕ) : ℚ) = (2 : ℚ) := by norm_num
  have hle : e ≤ Int.log 2 q := by
    have hmono := @Int.log_mono_right ℚ _ _ 2 ((2 : ℚ) ^ e) q
      (zpow_pos (by norm_num : (0 : ℚ) < 2) e) h1
    rw [← hc] at hmono
    rwa [Int.log_zpow hb e] at hmono
  have hge : Int.log 2 q ≤ e := by
    by_contra hlt
    push_neg at hlt
    have h3 : (2 : ℚ) ^ (e + 1) ≤ (2 : ℚ) ^ (Int.log 2 q) :=
      zpow_le_zpow_right₀ (by norm_num : (1 : ℚ) ≤ 2) hlt
    have h4 : ((2 : ℕ) : ℚ) ^ (Int.log 2 q) ≤ q := Int.zpow_log_le_self hb h0
    rw [hc] at h4
    exact absurd (h3.trans h4) (not_le.mpr h2)
  exact le_antisymm hge hle

/-- Round half to even fixes integers. -/
theorem rhe_intCast (n : ℤ) : rhe (n : ℚ) = n := by
  unfold rhe
  simp only [Int.floor_intCast]
  rw [if_pos]
  norm_num

/-- A 24-bit-significand value is a fixed point of the binary32
conversion. -/
theorem roundF32_fixed (q : ℚ) (h : IsFloat32 q) : roundF32 q = q := by
  rcases h with h0 | ⟨m, e, hm1, hm2, habs⟩
  · subst h0; simp [roundF32]
  · have hm0 : 0 < m := lt_of_lt_of_le (by norm_num) hm1
    have hq0 : q ≠ 0 := by
      intro hz
      rw [hz, abs_zero] at habs
      have hpos : (0 : ℚ) < (m : ℚ) * (2 : ℚ) ^ (e - 23) :=
        mul_pos (by exact_mod_cast hm0) (zpow_pos (by norm_num) _)
      rw [← habs] at hpos
      exact lt_irrefl _ hpos
    have hqpos : 0 < |q| := abs_pos.mpr hq0
    have hsplit : (2 : ℚ) ^ (23 : ℤ) * (2 : ℚ) ^ (e - 23) = (2 : ℚ) ^ e := by
      rw [← zpow_add₀ (by norm_num : (2 : ℚ) ≠ 0)]
      congr 1
      omega
    have hlow : (2 : ℚ) ^ e ≤ |q| := by
      rw [habs, ← hsplit]
      have hcast : (2 : ℚ) ^ (23 : ℤ) ≤ (m : ℚ) := by
        have : ((2 ^ 23 : ℕ) : ℚ) ≤ (m : ℚ) := by exact_mod_cast hm1
        calc (2 : ℚ) ^ (23 : ℤ) = ((2 ^ 23 : ℕ) : ℚ) := by norm_num
        _ ≤ (m : ℚ) := this
      exact mul_le_mul_of_nonneg_right hcast (le_of_lt (zpow_pos (by norm_num) _))
    have hsplit2 : (2 : ℚ) ^ (24 : ℤ) * (2 : ℚ) ^ (e - 23) = (2 : ℚ) ^ (e + 1) := by
      rw [← zpow_add₀ (by norm_num : (2 : ℚ) ≠ 0)]
      congr 1
      omega
    have hhigh : |q| < (2 : ℚ) ^ (e + 1) := by
      rw [habs, ← hsplit2]
      have hcast : (m : ℚ) < (2 : ℚ) ^ (24 : ℤ) := by
        have : (m : ℚ) < ((2 ^ 24 : ℕ) : ℚ) := by exact_mod_cast hm2
        calc (m : ℚ) < ((2 ^ 24 : ℕ) : ℚ) := this
        _ = (2 : ℚ) ^ (24 : ℤ) := by norm_num
      exact mul_lt_mul_of_pos_right hcast (zpow_pos (by norm_num) _)
    have hlog : Int.log 2 |q| = e := int_log2_eq _ _ hqpos hlow hhigh
    have hscaled : |q| * (2 : ℚ) ^ ((23 : ℤ) - e) = (m : ℚ) := by
      rw [habs, mul_assoc, ← zpow_add₀ (by norm_num : (2 : ℚ) ≠ 0)]
      norm_num
    have hrhe : rhe ((m : ℚ)) = (m : ℤ) := by
      have : ((m : ℤ) : ℚ) = (m : ℚ) := by push_cast; rfl
      rw [← this, rhe_intCast]
    unfold roundF32
    rw [if_neg hq0]
    simp only [hlog, hscaled, hrhe]
    by_cases hneg : q < 0
    · rw [if_pos hneg]
      have habs2 : -q = (m : ℚ) * (2 : ℚ) ^ (e - 23) := by
        rw [← abs_of_neg hneg]; exact habs
      push_cast
      linarith [habs2]
    · rw [if_neg hneg]
      have habs2 : q = (m : ℚ) * (2 : ℚ) ^ (e - 23) := by
        rw [← abs_of_nonneg (le_of_not_lt hneg)]; exact habs
      push_cast
      linarith [habs2]

/-- Claim C8 as amended: the persisted-layout round trip reproduces every
vector whose components already carry at most 24 significant bits — exactly
the values a binary32 embedder emits — while in general each component comes
back as its nearest 4-byte float (see the counterexample). -/
theorem embedding_roundtrip_exact (v : List ℚ) (h : ∀ q ∈ v, IsFloat32 q) :
    roundTripEmbedding v = v := by
  have hmap : ∀ (l : List ℚ), (∀ q ∈ l, IsFloat32 q) →
      List.map roundF32 l = l := by
    intro l
    induction l with
    | nil => intro _; rfl
    | cons q rest ih =>
      intro hq
      rw [List.map_cons, roundF32_fixed q (hq q (List.mem_cons_self _ _)),
        ih (fun x hx => hq x (List.mem_cons_of_mem _ hx))]
  exact hmap v h

/-- Witness for amended C8: `3/2 = 12582912 · 2⁻²³` has a 24-bit
significand and survives the round trip. -/
theorem embedding_roundtrip_exact_witness :
    (∀ q ∈ [(3 : ℚ) / 2], IsFloat32 q) ∧
    roundTripEmbedding [(3 : ℚ) / 2] = [(3 : ℚ) / 2] := by
  have hrep : IsFloat32 ((3 : ℚ) / 2) :=
    Or.inr ⟨12582912, 0, by norm_num, by norm_num, by norm_num⟩
  refine ⟨?_, ?_⟩
  · intro q hq
    rw [List.mem_singleton.mp hq]
    exact hrep
  · exact embedding_roundtrip_exact _
      (fun q hq => by rw [List.mem_singleton.mp hq]; exact hrep)

/-- Counterexample to claim C8 as stated: the double `1 + 2⁻³⁰` needs 31
significand bits, so packing it as a 4-byte float rounds it to `1` and the
decoded vector differs from the input. -/
theorem embedding_roundtrip_lossy :
    roundTripEmbedding [1 + 1 / 2 ^ 30] = [1] ∧
    (1 + (1 : ℚ) / 2 ^ 30) ≠ 1 := by
  have hq0 : (1 + (1 : ℚ) / 2 ^ 30) ≠ 0 := by norm_num
  have habs : |1 + (1 : ℚ) / 2 ^ 30| = 1 + 1 / 2 ^ 30 :=
    abs_of_pos (by norm_num)
  have hlog : Int.log 2 |1 + (1 : ℚ) / 2 ^ 30| = 0 := by
    rw [habs]
    exact int_log2_eq _ 0 (by norm_num) (by norm_num) (by norm_num)
  have hxval : |1 + (1 : ℚ) / 2 ^ 30| * (2 : ℚ) ^ ((23 : ℤ) - 0) =
      8388608 + 1 / 128 := by
    rw [habs]
    norm_num
  have hrhe : rhe (8388608 + 1 / 128 : ℚ) = 8388608 := by
    have hfloor : ⌊(8388608 + 1 / 128 : ℚ)⌋ = 8388608 := by
      rw [Int.floor_eq_iff]
      norm_num
    unfold rhe
    simp only [hfloor]
    rw [if_pos]
    norm_num
  have hr : roundF32 (1 + 1 / 2 ^ 30) = 1 := by
    unfold roundF32
    rw [if_neg hq0]
    simp only [hlog, hxval, hrhe]
    rw [if_neg (by norm_num : ¬(1 + (1 : ℚ) / 2 ^ 30 < 0))]
    norm_num
  constructor
  · show [roundF32 (1 + 1 / 2 ^ 30)] = [1]
    rw [hr]
  · norm_num
